import Mathlib

/-!
Verification development for the stowry repository.

The repository ships three example client scripts (python-native, python-aws,
app-flask-react) that exercise an external presigned-URL issuance and
verification engine described by the repository specification.  The engine
itself is not part of the shipped sources, so its data model and operations
are modelled from the specification (each such definition says so in its doc
comment).  The example scripts are embedded directly from their sources.
-/

namespace Stowry

/-- Byte strings are modelled as lists of natural numbers (each byte `< 256`
where relevant). -/
abbrev Bytes := List Nat

/-- Decimal rendering of a natural number as ASCII digit bytes. -/
def natDec (n : Nat) : List Nat :=
  if h : n < 10 then [48 + n]
  else natDec (n / 10) ++ [48 + n % 10]
decreasing_by exact Nat.div_lt_self (by omega) (by omega)

/-- Value of a single ASCII decimal digit byte. -/
def digitVal (b : Nat) : Option Nat :=
  if 48 ≤ b ∧ b ≤ 57 then some (b - 48) else none

/-- Accumulating decimal parser over digit bytes. -/
def parseNatAux : List Nat → Nat → Option Nat
  | [], acc => some acc
  | b :: bs, acc =>
    match digitVal b with
    | none => none
    | some d => parseNatAux bs (10 * acc + d)

/-- Parse a nonempty run of ASCII decimal digit bytes. -/
def parseNat (l : List Nat) : Option Nat :=
  if l = [] then none else parseNatAux l 0

/-- Modelled from the spec: the stable percent-encoding table of the URL
codec — unreserved bytes (ASCII letters, digits, `-`, `.`, `_`, `~`) pass
through, every other byte is escaped; space is escaped (as `%20`), never
written as `+`. -/
def isUnreservedByte (b : Nat) : Bool :=
  (65 ≤ b && b ≤ 90) || (97 ≤ b && b ≤ 122) || (48 ≤ b && b ≤ 57) ||
  b == 45 || b == 46 || b == 95 || b == 126

/-- Uppercase hexadecimal digit byte for a value below 16. -/
def hexDigit (n : Nat) : Nat := if n < 10 then 48 + n else 55 + n

/-- Value of an uppercase hexadecimal digit byte. -/
def hexVal (b : Nat) : Option Nat :=
  if 48 ≤ b ∧ b ≤ 57 then some (b - 48)
  else if 65 ≤ b ∧ b ≤ 70 then some (b - 55)
  else none

/-- Modelled from the spec: percent-encode a byte string with the codec's
encoding table (`37` is the `%` byte). -/
def pctEncode : List Nat → List Nat
  | [] => []
  | b :: bs =>
    (if isUnreservedByte b then [b] else [37, hexDigit (b / 16), hexDigit (b % 16)]) ++
      pctEncode bs

/-- Modelled from the spec: percent-decode a byte string; fails on a
malformed escape. -/
def pctDecode : List Nat → Option (List Nat)
  | [] => some []
  | b :: bs =>
    if b = 37 then
      match bs with
      | hi :: lo :: rest =>
        match hexVal hi, hexVal lo, pctDecode rest with
        | some h, some l, some d => some ((16 * h + l) :: d)
        | _, _, _ => none
      | _ => none
    else
      match pctDecode bs with
      | some d => some (b :: d)
      | none => none

/-- Modelled from the spec: one encoded `key=value` query pair (`61` is the
`=` byte). -/
def encodePair (p : List Nat × List Nat) : List Nat :=
  pctEncode p.1 ++ 61 :: pctEncode p.2

/-- Modelled from the spec: encode an ordered query-parameter mapping,
joining pairs with `&` (byte `38`); the order given is preserved (the native
scheme uses a stable fixed field order). -/
def encodeQuery : List (List Nat × List Nat) → List Nat
  | [] => []
  | [p] => encodePair p
  | p :: q :: ps => encodePair p ++ 38 :: encodeQuery (q :: ps)

/-- Split at the first `=` byte. -/
def splitFirstEq : List Nat → Option (List Nat × List Nat)
  | [] => none
  | b :: bs =>
    if b = 61 then some ([], bs)
    else
      match splitFirstEq bs with
      | some p => some (b :: p.1, p.2)
      | none => none

/-- Split a byte string on every `&` byte. -/
def splitAmp : List Nat → List (List Nat)
  | [] => [[]]
  | b :: bs =>
    if b = 38 then [] :: splitAmp bs
    else
      match splitAmp bs with
      | [] => [[b]]
      | g :: gs => (b :: g) :: gs

/-- Decode one `key=value` segment. -/
def decodePair (l : List Nat) : Option (List Nat × List Nat) :=
  match splitFirstEq l with
  | none => none
  | some (k, v) =>
    match pctDecode k, pctDecode v with
    | some dk, some dv => some (dk, dv)
    | _, _ => none

/-- Decode every segment of a split query string. -/
def decodePairs : List (List Nat) → Option (List (List Nat × List Nat))
  | [] => some []
  | seg :: segs =>
    match decodePair seg, decodePairs segs with
    | some p, some ps => some (p :: ps)
    | _, _ => none

/-- Modelled from the spec: decode a query string back into its ordered
query-parameter mapping. -/
def decodeQuery (l : List Nat) : Option (List (List Nat × List Nat)) :=
  if l = [] then some [] else decodePairs (splitAmp l)

/-- Modelled from the spec: the HTTP methods a SignRequestSpec may carry. -/
inductive Method where
  | GET
  | PUT
  | DELETE
  | HEAD
deriving DecidableEq

/-- ASCII bytes of a method name. -/
def methodBytes : Method → List Nat
  | .GET => [71, 69, 84]
  | .PUT => [80, 85, 84]
  | .DELETE => [68, 69, 76, 69, 84, 69]
  | .HEAD => [72, 69, 65, 68]

/-- Modelled from the spec: an access-key credential held by the KeyStore. -/
structure AccessKeyPair where
  access_key_id : List Nat
  secret_key : List Nat
  region : List Nat
deriving DecidableEq

/-- Modelled from the spec: the per-call signing request. -/
structure SignRequestSpec where
  method : Method
  bucket : List Nat
  key : List Nat
  content_type : Option (List Nat)
  expires_in : Nat
  issued_at : Nat
deriving DecidableEq

/-- Modelled from the spec: the closed error surface of the engine. -/
inductive AuthError where
  | malformedKey
  | invalidExpiry
  | unsignedRequest
  | unknownKey
  | signatureMismatch
  | expiredSignature
  | notYetValid
deriving DecidableEq

/-- ASCII bytes of the lower-cased signed header name `content-type`. -/
def contentTypeHeaderName : List Nat :=
  [99, 111, 110, 116, 101, 110, 116, 45, 116, 121, 112, 101]

/-- Modelled from the spec: the signed-headers line — the `content-type`
header when present (byte `58` is `:`), otherwise empty. -/
def canonicalHeaders : Option (List Nat) → List Nat
  | none => []
  | some v => contentTypeHeaderName ++ 58 :: v

/-- Modelled from the spec: the CanonicalRequest Builder — method, path,
canonical query string and signed headers joined by newline bytes (`10`);
fails with `MalformedKeyError` when the path does not begin with `/`
(byte `47`). -/
def canonicalRequest (m : Method) (path : List Nat) (query : List (List Nat × List Nat))
    (ct : Option (List Nat)) : Except AuthError (List Nat) :=
  if path.head? = some 47 then
    .ok (methodBytes m ++ 10 :: path ++ 10 :: encodeQuery query ++ 10 :: canonicalHeaders ct)
  else .error .malformedKey

/-- ASCII bytes of the native scheme domain tag `STOWRY`. -/
def STOWRYTag : List Nat := [83, 84, 79, 87, 82, 89]

/-- Modelled from the spec: the HMAC-style keyed MAC, treated as an ideal
(collision-free) MAC in this symbolic embedding — the output determines both
the key and the message, which is the property the spec assumes of HMAC. -/
def hmac (key msg : List Nat) : List Nat :=
  natDec key.length ++ 58 :: (key ++ msg)

/-- Modelled from the spec: the policy-configured expiry ceiling (7 days). -/
def maxExpiry : Nat := 604800

/-- ASCII bytes of the query-parameter name `X-Stowry-Key`. -/
def keyParamName : List Nat :=
  [88, 45, 83, 116, 111, 119, 114, 121, 45, 75, 101, 121]

/-- ASCII bytes of the query-parameter name `X-Stowry-Date`. -/
def dateParamName : List Nat :=
  [88, 45, 83, 116, 111, 119, 114, 121, 45, 68, 97, 116, 101]

/-- ASCII bytes of the query-parameter name `X-Stowry-Expires`. -/
def expiresParamName : List Nat :=
  [88, 45, 83, 116, 111, 119, 114, 121, 45, 69, 120, 112, 105, 114, 101, 115]

/-- ASCII bytes of the query-parameter name `X-Stowry-Signature`. -/
def sigParamName : List Nat :=
  [88, 45, 83, 116, 111, 119, 114, 121, 45, 83, 105, 103, 110, 97, 116, 117, 114, 101]

/-- Modelled from the spec: a produced presigned URL — a path and an ordered
query-parameter mapping. -/
structure PresignedURL where
  path : List Nat
  params : List (List Nat × List Nat)
deriving DecidableEq

/-- The three signed query parameters of the native scheme, in their stable
fixed order. -/
def signedParams (s : SignRequestSpec) (kp : AccessKeyPair) : List (List Nat × List Nat) :=
  [(keyParamName, kp.access_key_id), (dateParamName, natDec s.issued_at),
   (expiresParamName, natDec s.expires_in)]

/-- Modelled from the spec: the native-scheme Signer.  Rejects a key that
does not begin with `/` with `MalformedKeyError` and an `expires_in` outside
`(0, maxExpiry]` with `InvalidExpiryError`; otherwise derives the signing key
as `HMAC(secret, STOWRY || date-scope)`, signs the canonical request of the
path-style path `/{bucket}{key}` and appends the signature parameter. -/
def sign (s : SignRequestSpec) (kp : AccessKeyPair) : Except AuthError PresignedURL :=
  if s.key.head? ≠ some 47 then .error .malformedKey
  else if s.expires_in = 0 ∨ maxExpiry < s.expires_in then .error .invalidExpiry
  else
    match canonicalRequest s.method (47 :: (s.bucket ++ s.key)) (signedParams s kp)
        s.content_type with
    | .error e => .error e
    | .ok canon =>
      .ok { path := 47 :: (s.bucket ++ s.key)
            params := signedParams s kp ++
              [(sigParamName, hmac (hmac kp.secret_key (STOWRYTag ++ natDec s.issued_at)) canon)] }

/-- Modelled from the spec: the normalized view of an inbound HTTP request
handed to the Verifier by the routing layer. -/
structure Request where
  method : Method
  path : List Nat
  params : List (List Nat × List Nat)
  content_type : Option (List Nat)
deriving DecidableEq

/-- Present a produced presigned URL as an incoming request carrying the
given method and content type. -/
def toRequest (u : PresignedURL) (m : Method) (ct : Option (List Nat)) : Request :=
  { method := m, path := u.path, params := u.params, content_type := ct }

/-- First value bound to a query-parameter name. -/
def lookupParam (name : List Nat) : List (List Nat × List Nat) → Option (List Nat)
  | [] => none
  | p :: ps => if p.1 = name then some p.2 else lookupParam name ps

/-- Drop every binding of a query-parameter name. -/
def removeParam (name : List Nat) : List (List Nat × List Nat) → List (List Nat × List Nat)
  | [] => []
  | p :: ps => if p.1 = name then removeParam name ps else p :: removeParam name ps

/-- Modelled from the spec: KeyStore resolution of an access-key id. -/
def resolve (ks : List AccessKeyPair) (id : List Nat) : Option AccessKeyPair :=
  match ks with
  | [] => none
  | kp :: rest => if kp.access_key_id = id then some kp else resolve rest id

/-- Modelled from the spec: the authorized scope returned on success. -/
structure Scope where
  method : Method
  bucket : List Nat
  key : List Nat
deriving DecidableEq

/-- The scope addressed by a request: the first path segment is the bucket,
the remainder (beginning with `/`) is the object key. -/
def scopeOf (r : Request) : Scope :=
  { method := r.method
    bucket := (r.path.drop 1).takeWhile (fun c => c ≠ 47)
    key := (r.path.drop 1).dropWhile (fun c => c ≠ 47) }

/-- Modelled from the spec: the Verifier.  Identifies the scheme by the
presence of the signature parameter, resolves the key id, rebuilds the
canonical request from the actual inbound method/path/query/headers,
compares the recomputed signature, and finally checks the inclusive expiry
window `[issued_at, issued_at + expires_in]`. -/
def verify (ks : List AccessKeyPair) (r : Request) (now : Nat) :
    Except AuthError (AccessKeyPair × Scope) :=
  match lookupParam sigParamName r.params with
  | none => .error .unsignedRequest
  | some sig =>
    match lookupParam keyParamName r.params with
    | none => .error .unknownKey
    | some id =>
      match resolve ks id with
      | none => .error .unknownKey
      | some kp =>
        match lookupParam dateParamName r.params, lookupParam expiresParamName r.params with
        | some date, some expB =>
          match canonicalRequest r.method r.path (removeParam sigParamName r.params)
              r.content_type with
          | .error e => .error e
          | .ok canon =>
            if hmac (hmac kp.secret_key (STOWRYTag ++ date)) canon ≠ sig then
              .error .signatureMismatch
            else
              match parseNat date, parseNat expB with
              | some issued, some expires =>
                if now < issued then .error .notYetValid
                else if issued + expires < now then .error .expiredSignature
                else .ok (kp, scopeOf r)
              | _, _ => .error .unsignedRequest
        | _, _ => .error .unsignedRequest

/-- The full query-parameter list of a native-scheme signed request: key id,
date, expires and signature, in the stable field order. -/
def stdParams (id d e g : List Nat) : List (List Nat × List Nat) :=
  [(keyParamName, id), (dateParamName, d), (expiresParamName, e), (sigParamName, g)]

/-- The canonical request a native-scheme party builds for method `m`,
path `p`, key id `id`, date `d`, expires `e` and headers from `ct`. -/
def canonicalOf (m : Method) (p id d e : List Nat) (ct : Option (List Nat)) : List Nat :=
  methodBytes m ++ 10 :: p ++ 10 ::
    encodeQuery [(keyParamName, id), (dateParamName, d), (expiresParamName, e)] ++
    10 :: canonicalHeaders ct

/-- The signature `sign` embeds for spec `s` under keypair `kp`. -/
def signatureOf (s : SignRequestSpec) (kp : AccessKeyPair) : List Nat :=
  hmac (hmac kp.secret_key (STOWRYTag ++ natDec s.issued_at))
    (canonicalOf s.method (47 :: (s.bucket ++ s.key)) kp.access_key_id
      (natDec s.issued_at) (natDec s.expires_in) s.content_type)

/-- The presigned URL `sign` produces for a valid spec. -/
def signedURL (s : SignRequestSpec) (kp : AccessKeyPair) : PresignedURL :=
  { path := 47 :: (s.bucket ++ s.key)
    params := stdParams kp.access_key_id (natDec s.issued_at) (natDec s.expires_in)
      (signatureOf s kp) }

/-- From `app-flask-react/backend/app.py`: the word-character class of
Python's `\w` used by `sanitize_filename` — ASCII alphanumerics and the
underscore; non-ASCII codepoints are kept as word characters (Python's `re`
is Unicode-aware; the properties proved below do not depend on the exact
non-ASCII classification). -/
def isWordChar (c : Char) : Bool := c.isAlphanum || c == '_' || 128 ≤ c.toNat

/-- From `app.py` sanitize_filename step 1: `filename.replace(" ", "_")`. -/
def replaceSpaces (l : List Char) : List Char :=
  l.map fun c => if c = ' ' then '_' else c

/-- From `app.py` sanitize_filename step 2: `re.sub(r"[^\w\-.]", "_", name)`
— a single-character class, so the substitution acts pointwise. -/
def replaceNonWord (l : List Char) : List Char :=
  l.map fun c => if isWordChar c || c = '-' || c = '.' then c else '_'

/-- From `app.py` sanitize_filename step 3: `re.sub(r"_+", "_", name)` —
each maximal run of underscores becomes a single underscore. -/
def collapseUnderscores : List Char → List Char
  | [] => []
  | c :: rest =>
    if c = '_' then '_' :: collapseUnderscores (rest.dropWhile (· = '_'))
    else c :: collapseUnderscores rest
termination_by l => l.length
decreasing_by
  · simp only [List.length_cons]
    exact Nat.lt_succ_of_le ((List.dropWhile_sublist _).length_le)
  · simp

/-- From `app-flask-react/backend/app.py` lines 12-20: sanitize a filename
for URLs and file systems. -/
def sanitize_filename (s : String) : String :=
  ⟨collapseUnderscores (replaceNonWord (replaceSpaces s.data))⟩

/-- From `app.py` presign_upload (lines 53-60):
`key = f"/{BUCKET}/{unique_id}-{safe_filename}"`. -/
def presignUploadKey (bucket uniqueId filename : String) : String :=
  "/" ++ bucket ++ "/" ++ uniqueId ++ "-" ++ sanitize_filename filename

/-- Python's `key.startswith("/")`: the first character is `/`. -/
def startsWithSlash (s : String) : Bool := s.data.head? == some '/'

/-- From `app.py` presign_download (lines 103-111): prepend `/` when it is
absent. -/
def presignDownloadKey (key : String) : String :=
  if startsWithSlash key then key else "/" ++ key

/-- From `python-native/main.py` line 50: the literal object key. -/
def nativeExampleKey : String := "/hello.txt"

/-- From `python-native/main.py` line 70: the second presigned PUT key. -/
def nativePresignedUploadKey : String := "/presigned-upload.txt"

/-- From `app-flask-react/backend/app.py` save_file (lines 77-84): the key
stored in a file record is `data.get("key", "")` — the client-posted value
with an empty-string default, stored without validation. -/
def saveFileKey (posted : Option String) : String := posted.getD ""

/-- From `app.py` list_files (line 94): the object key handed to
`client.presign_get` is the stored record key, passed through unchanged. -/
def listFilesPresignKey (storedKey : String) : String := storedKey

/-- Codepoint bytes of a string (agrees with UTF-8 on ASCII, in particular
on the leading `/`). -/
def strBytes (s : String) : List Nat := s.data.map Char.toNat

/-- One HTTP request performed by an example script: its method and the
extra headers it attaches. -/
structure HttpCall where
  method : Method
  headers : List (String × String)
deriving DecidableEq

/-- From `python-native/main.py` lines 54-78: the requests the script sends
to presigned URLs, in order — PUT with a Content-Type header, GET with no
headers, DELETE with no headers. -/
def nativeMainCalls : List HttpCall :=
  [⟨.PUT, [("Content-Type", "text/plain")]⟩, ⟨.GET, []⟩, ⟨.DELETE, []⟩]

/-- From `python-aws/main.py` lines 89-118: likewise PUT with Content-Type,
GET and DELETE with no headers. -/
def awsMainCalls : List HttpCall :=
  [⟨.PUT, [("Content-Type", "text/plain")]⟩, ⟨.GET, []⟩, ⟨.DELETE, []⟩]

/-- One configured auth key of an example script. -/
structure AuthKey where
  access_key : String
  secret_key : String
deriving DecidableEq

/-- From `python-native/main.py`: the `auth.keys.inline` layer of the YAML
configuration; `none` models a missing field. -/
structure NativeAuthKeys where
  inline : Option (List AuthKey)

/-- From `python-native/main.py`: the `auth` mapping of the configuration. -/
structure NativeAuth where
  keys : Option NativeAuthKeys

/-- From `python-native/main.py`: the loaded YAML configuration. -/
structure NativeConfig where
  auth : Option NativeAuth

/-- From `python-native/main.py` line 37:
`config.get("auth", {}).get("keys", {}).get("inline", [])`. -/
def nativeConfigKeys (c : NativeConfig) : List AuthKey :=
  match c.auth with
  | none => []
  | some a =>
    match a.keys with
    | none => []
    | some ks => ks.inline.getD []

/-- The StowryClient construction arguments of `python-native/main.py`. -/
structure StowryClientModel where
  endpoint : String
  access_key : String
  secret_key : String
deriving DecidableEq

/-- From `python-native/main.py` lines 34-47: raise
`ValueError("No auth keys found in config")` when the key list is empty,
otherwise construct the StowryClient from `keys[0]`. -/
def nativeMainClient (c : NativeConfig) : Except String StowryClientModel :=
  match nativeConfigKeys c with
  | [] => .error "No auth keys found in config"
  | k :: _ => .ok ⟨"http://localhost:5708", k.access_key, k.secret_key⟩

/-- From `python-aws/main.py`: the `auth` mapping of the configuration. -/
structure AwsAuth where
  keys : Option (List AuthKey)
  region : Option String

/-- From `python-aws/main.py`: the loaded YAML configuration. -/
structure AwsConfig where
  auth : Option AwsAuth

/-- From `python-aws/main.py` line 37: `auth.get("keys", [])`. -/
def awsConfigKeys (c : AwsConfig) : List AuthKey :=
  match c.auth with
  | none => []
  | some a => a.keys.getD []

/-- The boto3 S3 client construction arguments of `python-aws/main.py`. -/
structure S3ClientModel where
  endpoint_url : String
  aws_access_key_id : String
  aws_secret_access_key : String
  region_name : String
deriving DecidableEq

/-- From `python-aws/main.py` lines 34-51 (create_client): raise
`ValueError("No auth keys found in config")` when the key list is empty,
otherwise construct the boto3 client from `keys[0]` and
`auth.get("region", "us-east-1")`. -/
def create_client (c : AwsConfig) : Except String S3ClientModel :=
  match awsConfigKeys c with
  | [] => .error "No auth keys found in config"
  | k :: _ =>
    .ok { endpoint_url := "http://localhost:5708"
          aws_access_key_id := k.access_key
          aws_secret_access_key := k.secret_key
          region_name := (c.auth.bind (·.region)).getD "us-east-1" }

theorem natDec_digits (n : Nat) : ∀ b ∈ natDec n, 48 ≤ b ∧ b ≤ 57 := by
  induction n using natDec.induct with
  | case1 n h =>
    intro b hb
    rw [natDec, dif_pos h] at hb
    simp at hb
    omega
  | case2 n h ih =>
    intro b hb
    rw [natDec, dif_neg h] at hb
    rcases List.mem_append.1 hb with h1 | h1
    · exact ih b h1
    · simp at h1
      have : n % 10 < 10 := Nat.mod_lt _ (by omega)
      omega

theorem natDec_ne_nil (n : Nat) : natDec n ≠ [] := by
  rw [natDec]
  split <;> simp

theorem parseNatAux_append (n : Nat) :
    ∀ (r : List Nat) (acc : Nat),
      parseNatAux (natDec n ++ r) acc = parseNatAux r (acc * 10 ^ (natDec n).length + n) := by
  induction n using natDec.induct with
  | case1 n h =>
    intro r acc
    rw [natDec, dif_pos h]
    have h1 : digitVal (48 + n) = some n := by
      rw [digitVal, if_pos (by omega)]
      congr 1
      omega
    simp only [List.cons_append, List.nil_append, parseNatAux, h1, List.length_cons,
      List.length_nil]
    have h2 : 10 * acc + n = acc * 10 ^ (0 + 1) + n := by ring
    rw [h2]
    rfl
  | case2 n h ih =>
    intro r acc
    rw [natDec, dif_neg h, List.append_assoc, ih]
    have h1 : digitVal (48 + n % 10) = some (n % 10) := by
      have hm : n % 10 < 10 := Nat.mod_lt _ (by omega)
      rw [digitVal, if_pos (by omega)]
      congr 1
      omega
    simp only [List.cons_append, List.nil_append, parseNatAux, h1, List.length_append,
      List.length_cons, List.length_nil]
    have h2 : 10 * (n / 10) + n % 10 = n := by omega
    have h3 : 10 * (acc * 10 ^ (natDec (n / 10)).length + n / 10) + n % 10
        = acc * 10 ^ ((natDec (n / 10)).length + (0 + 1)) + (10 * (n / 10) + n % 10) := by
      ring
    rw [h3, h2]
    rfl

theorem parseNat_natDec (n : Nat) : parseNat (natDec n) = some n := by
  have h1 : parseNatAux (natDec n ++ []) 0 = parseNatAux [] (0 * 10 ^ (natDec n).length + n) :=
    parseNatAux_append n [] 0
  simp only [List.append_nil, parseNatAux, Nat.zero_mul, Nat.zero_add] at h1
  rw [parseNat, if_neg (natDec_ne_nil n)]
  exact h1

theorem natDec_inj {m n : Nat} (h : natDec m = natDec n) : m = n := by
  have h1 := parseNat_natDec m
  rw [h, parseNat_natDec n] at h1
  exact (Option.some.inj h1).symm


theorem hexVal_hexDigit {n : Nat} (h : n < 16) : hexVal (hexDigit n) = some n := by
  rw [hexDigit]
  by_cases h10 : n < 10
  · rw [if_pos h10, hexVal, if_pos (by omega)]
    congr 1
    omega
  · rw [if_neg h10, hexVal, if_neg (by omega), if_pos (by omega)]
    congr 1
    omega

theorem hexDigit_range (n : Nat) : (48 ≤ hexDigit n ∧ hexDigit n ≤ 57) ∨ 65 ≤ hexDigit n := by
  rw [hexDigit]
  split <;> omega

theorem isUnreservedByte_bounds {b : Nat} (h : isUnreservedByte b = true) :
    (48 ≤ b ∧ b ≤ 57) ∨ (65 ≤ b ∧ b ≤ 90) ∨ (97 ≤ b ∧ b ≤ 122) ∨ b = 45 ∨ b = 46 ∨
      b = 95 ∨ b = 126 := by
  simp only [isUnreservedByte, Bool.or_eq_true, Bool.and_eq_true, decide_eq_true_eq,
    beq_iff_eq] at h
  omega

theorem pctEncode_sepFree {l : List Nat} : ∀ c ∈ pctEncode l, c ≠ 38 ∧ c ≠ 61 := by
  induction l with
  | nil => intro c hc; simp [pctEncode] at hc
  | cons b bs ih =>
    intro c hc
    rw [pctEncode] at hc
    rcases List.mem_append.1 hc with h1 | h1
    · split at h1
      · simp at h1
        subst h1
        rcases isUnreservedByte_bounds (by assumption) with h | h | h | h | h | h | h <;> omega
      · simp at h1
        rcases h1 with h1 | h1 | h1
        · omega
        · rcases hexDigit_range (b / 16) with h | h <;> omega
        · rcases hexDigit_range (b % 16) with h | h <;> omega
    · exact ih c h1

theorem pctDecode_pctEncode {l : List Nat} (h : ∀ b ∈ l, b < 256) :
    pctDecode (pctEncode l) = some l := by
  induction l with
  | nil => rfl
  | cons b bs ih =>
    have hb : b < 256 := h b (List.mem_cons_self _ _)
    have hbs : ∀ x ∈ bs, x < 256 := fun x hx => h x (List.mem_cons_of_mem _ hx)
    rw [pctEncode]
    split
    · have hb37 : b ≠ 37 := by
        rcases isUnreservedByte_bounds (by assumption) with h | h | h | h | h | h | h <;> omega
      simp only [List.cons_append, List.nil_append]
      rw [pctDecode.eq_def]
      split
      · simp_all
      · rename_i x b2 bs2 heq
        rw [List.cons.injEq] at heq
        rw [← heq.1, ← heq.2, if_neg hb37, ih hbs]
    · simp only [List.cons_append, List.nil_append]
      rw [pctDecode.eq_def]
      have hhi : hexVal (hexDigit (b / 16)) = some (b / 16) := hexVal_hexDigit (by omega)
      have hlo : hexVal (hexDigit (b % 16)) = some (b % 16) := hexVal_hexDigit (by omega)
      simp only [hhi, hlo, ih hbs]
      have hdm : 16 * (b / 16) + b % 16 = b := by omega
      simp [hdm]


theorem splitFirstEq_append {k : List Nat} (hk : ∀ c ∈ k, c ≠ 61) (v : List Nat) :
    splitFirstEq (k ++ 61 :: v) = some (k, v) := by
  induction k with
  | nil => simp [splitFirstEq]
  | cons b bs ih =>
    have hb : b ≠ 61 := hk b (List.mem_cons_self _ _)
    have hbs : ∀ c ∈ bs, c ≠ 61 := fun c hc => hk c (List.mem_cons_of_mem _ hc)
    rw [List.cons_append, splitFirstEq, if_neg hb, ih hbs]

theorem splitAmp_of_sepFree {l : List Nat} (h : ∀ c ∈ l, c ≠ 38) : splitAmp l = [l] := by
  induction l with
  | nil => rfl
  | cons b bs ih =>
    have hb : b ≠ 38 := h b (List.mem_cons_self _ _)
    have hbs : ∀ c ∈ bs, c ≠ 38 := fun c hc => h c (List.mem_cons_of_mem _ hc)
    rw [splitAmp, if_neg hb, ih hbs]

theorem splitAmp_append {a : List Nat} (ha : ∀ c ∈ a, c ≠ 38) (r : List Nat) :
    splitAmp (a ++ 38 :: r) = a :: splitAmp r := by
  induction a with
  | nil => rw [List.nil_append, splitAmp, if_pos rfl]
  | cons b bs ih =>
    have hb : b ≠ 38 := ha b (List.mem_cons_self _ _)
    have hbs : ∀ c ∈ bs, c ≠ 38 := fun c hc => ha c (List.mem_cons_of_mem _ hc)
    rw [List.cons_append, splitAmp, if_neg hb, ih hbs]

theorem encodePair_ampFree (p : List Nat × List Nat) : ∀ c ∈ encodePair p, c ≠ 38 := by
  intro c hc
  rw [encodePair] at hc
  rcases List.mem_append.1 hc with h1 | h1
  · exact (pctEncode_sepFree c h1).1
  · rcases List.mem_cons.1 h1 with h2 | h2
    · omega
    · exact (pctEncode_sepFree c h2).1

theorem encodePair_ne_nil (p : List Nat × List Nat) : encodePair p ≠ [] := by
  rw [encodePair]
  simp

theorem decodePair_encodePair {p : List Nat × List Nat}
    (h1 : ∀ b ∈ p.1, b < 256) (h2 : ∀ b ∈ p.2, b < 256) :
    decodePair (encodePair p) = some p := by
  rw [decodePair, encodePair,
    splitFirstEq_append (fun c hc => (pctEncode_sepFree c hc).2) (pctEncode p.2)]
  simp only [pctDecode_pctEncode h1, pctDecode_pctEncode h2]

theorem encodeQuery_cons_ne_nil (p : List Nat × List Nat)
    (ps : List (List Nat × List Nat)) : encodeQuery (p :: ps) ≠ [] := by
  match ps with
  | [] => exact encodePair_ne_nil p
  | q :: qs =>
    rw [encodeQuery]
    simp [List.append_eq_nil]

theorem decodeQuery_encodeQuery {ps : List (List Nat × List Nat)}
    (h : ∀ p ∈ ps, (∀ b ∈ p.1, b < 256) ∧ (∀ b ∈ p.2, b < 256)) :
    decodeQuery (encodeQuery ps) = some ps := by
  induction ps using encodeQuery.induct with
  | case1 => rfl
  | case2 p =>
    have hp := h p (List.mem_cons_self _ _)
    rw [encodeQuery, decodeQuery, if_neg (encodePair_ne_nil p),
      splitAmp_of_sepFree (encodePair_ampFree p), decodePairs,
      decodePair_encodePair hp.1 hp.2, decodePairs]
  | case3 p q qs ih =>
    have hp := h p (List.mem_cons_self _ _)
    have hrest : ∀ r ∈ q :: qs, (∀ b ∈ r.1, b < 256) ∧ (∀ b ∈ r.2, b < 256) :=
      fun r hr => h r (List.mem_cons_of_mem _ hr)
    have hih := ih hrest
    rw [decodeQuery, if_neg (encodeQuery_cons_ne_nil q qs)] at hih
    rw [encodeQuery, decodeQuery,
      if_neg (by simp [List.append_eq_nil]),
      splitAmp_append (encodePair_ampFree p) _, decodePairs,
      decodePair_encodePair hp.1 hp.2, hih]


theorem digitRun_sep {d1 : List Nat} :
    ∀ {d2 r1 r2 : List Nat}, (∀ c ∈ d1, c ≤ 57) → (∀ c ∈ d2, c ≤ 57) →
      d1 ++ 58 :: r1 = d2 ++ 58 :: r2 → d1 = d2 ∧ r1 = r2 := by
  induction d1 with
  | nil =>
    intro d2 r1 r2 _ h2 heq
    cases d2 with
    | nil =>
      simp only [List.nil_append, List.cons.injEq] at heq
      exact ⟨rfl, heq.2⟩
    | cons b bs =>
      rw [List.nil_append, List.cons_append, List.cons.injEq] at heq
      have hb := h2 b (List.mem_cons_self _ _)
      exact absurd heq.1 (by omega)
  | cons a as ih =>
    intro d2 r1 r2 h1 h2 heq
    cases d2 with
    | nil =>
      rw [List.cons_append, List.nil_append, List.cons.injEq] at heq
      have ha := h1 a (List.mem_cons_self _ _)
      exact absurd heq.1 (by omega)
    | cons b bs =>
      rw [List.cons_append, List.cons_append, List.cons.injEq] at heq
      have h3 := ih (fun c hc => h1 c (List.mem_cons_of_mem _ hc))
        (fun c hc => h2 c (List.mem_cons_of_mem _ hc)) heq.2
      exact ⟨by rw [heq.1, h3.1], h3.2⟩

theorem hmac_inj {k1 m1 k2 m2 : List Nat} (h : hmac k1 m1 = hmac k2 m2) :
    k1 = k2 ∧ m1 = m2 := by
  rw [hmac, hmac] at h
  have hd := digitRun_sep (fun c hc => (natDec_digits _ c hc).2)
    (fun c hc => (natDec_digits _ c hc).2) h
  exact List.append_inj hd.2 (natDec_inj hd.1)

theorem methodSplit_inj {m m' : Method} {t1 t2 : List Nat}
    (h : methodBytes m ++ 10 :: t1 = methodBytes m' ++ 10 :: t2) : m = m' ∧ t1 = t2 := by
  cases m <;> cases m' <;> simp [methodBytes] at h <;> simp [h]

theorem key_ne_date : keyParamName ≠ dateParamName := by decide

theorem key_ne_expires : keyParamName ≠ expiresParamName := by decide

theorem key_ne_sig : keyParamName ≠ sigParamName := by decide

theorem date_ne_expires : dateParamName ≠ expiresParamName := by decide

theorem date_ne_sig : dateParamName ≠ sigParamName := by decide

theorem expires_ne_sig : expiresParamName ≠ sigParamName := by decide

theorem lookupParam_std_sig (i d e g : List Nat) :
    lookupParam sigParamName (stdParams i d e g) = some g := by
  simp [stdParams, lookupParam, key_ne_sig, date_ne_sig, expires_ne_sig]

theorem lookupParam_std_key (i d e g : List Nat) :
    lookupParam keyParamName (stdParams i d e g) = some i := by
  simp [stdParams, lookupParam]

theorem lookupParam_std_date (i d e g : List Nat) :
    lookupParam dateParamName (stdParams i d e g) = some d := by
  simp [stdParams, lookupParam, key_ne_date]

theorem lookupParam_std_expires (i d e g : List Nat) :
    lookupParam expiresParamName (stdParams i d e g) = some e := by
  simp [stdParams, lookupParam, key_ne_expires, date_ne_expires]

theorem removeParam_std_sig (i d e g : List Nat) :
    removeParam sigParamName (stdParams i d e g) =
      [(keyParamName, i), (dateParamName, d), (expiresParamName, e)] := by
  simp [stdParams, removeParam, key_ne_sig, date_ne_sig, expires_ne_sig]

theorem resolve_self (kp : AccessKeyPair) (ks : List AccessKeyPair) :
    resolve (kp :: ks) kp.access_key_id = some kp := by
  rw [resolve, if_pos rfl]

theorem sign_eq {s : SignRequestSpec} {kp : AccessKeyPair}
    (hk : s.key.head? = some 47) (h1 : s.expires_in ≠ 0) (h2 : s.expires_in ≤ maxExpiry) :
    sign s kp = .ok (signedURL s kp) := by
  rw [sign, if_neg (by simp [hk]), if_neg (by omega), canonicalRequest]
  simp [signedURL, stdParams, signedParams, signatureOf, canonicalOf]

theorem verify_std (kp : AccessKeyPair) (m : Method) (p d e g : List Nat)
    (ct : Option (List Nat)) (now : Nat) (hp : p.head? = some 47) :
    verify [kp] ⟨m, p, stdParams kp.access_key_id d e g, ct⟩ now =
      if hmac (hmac kp.secret_key (STOWRYTag ++ d))
          (canonicalOf m p kp.access_key_id d e ct) ≠ g then
        .error .signatureMismatch
      else
        match parseNat d, parseNat e with
        | some issued, some expires =>
          if now < issued then .error .notYetValid
          else if issued + expires < now then .error .expiredSignature
          else .ok (kp, scopeOf ⟨m, p, stdParams kp.access_key_id d e g, ct⟩)
        | _, _ => .error .unsignedRequest := by
  simp only [verify, lookupParam_std_sig, lookupParam_std_key, lookupParam_std_date,
    lookupParam_std_expires, removeParam_std_sig, resolve_self, canonicalRequest]
  rw [if_pos hp]
  rfl

theorem takeWhile_ne47 {b : List Nat} (hb : ∀ c ∈ b, c ≠ 47) :
    ∀ {k : List Nat}, k.head? = some 47 →
      (b ++ k).takeWhile (fun c => c ≠ 47) = b := by
  induction b with
  | nil =>
    intro k hk
    cases k with
    | nil => simp at hk
    | cons x xs =>
      simp only [List.head?_cons, Option.some.injEq] at hk
      subst hk
      simp [List.takeWhile_cons]
  | cons a as ih =>
    intro k hk
    have ha : a ≠ 47 := hb a (List.mem_cons_self _ _)
    have has : ∀ c ∈ as, c ≠ 47 := fun c hc => hb c (List.mem_cons_of_mem _ hc)
    rw [List.cons_append, List.takeWhile_cons, if_pos (by simp [ha]), ih has hk]

theorem dropWhile_ne47 {b : List Nat} (hb : ∀ c ∈ b, c ≠ 47) :
    ∀ {k : List Nat}, k.head? = some 47 →
      (b ++ k).dropWhile (fun c => c ≠ 47) = k := by
  induction b with
  | nil =>
    intro k hk
    cases k with
    | nil => simp at hk
    | cons x xs =>
      simp only [List.head?_cons, Option.some.injEq] at hk
      subst hk
      simp [List.dropWhile_cons]
  | cons a as ih =>
    intro k hk
    have ha : a ≠ 47 := hb a (List.mem_cons_self _ _)
    have has : ∀ c ∈ as, c ≠ 47 := fun c hc => hb c (List.mem_cons_of_mem _ hc)
    rw [List.cons_append, List.dropWhile_cons, if_pos (by simp [ha]), ih has hk]

theorem scopeOf_std (m : Method) {b k : List Nat} (ps : List (List Nat × List Nat))
    (ct : Option (List Nat)) (hb : ∀ c ∈ b, c ≠ 47) (hk : k.head? = some 47) :
    scopeOf ⟨m, 47 :: (b ++ k), ps, ct⟩ = ⟨m, b, k⟩ := by
  rw [scopeOf]
  simp only [List.drop_succ_cons, List.drop_zero]
  rw [takeWhile_ne47 hb hk, dropWhile_ne47 hb hk]

theorem verify_signed_ok (s : SignRequestSpec) (kp : AccessKeyPair) (now : Nat)
    (hk : s.key.head? = some 47) (hb : ∀ c ∈ s.bucket, c ≠ 47)
    (hlo : s.issued_at ≤ now) (hhi : now ≤ s.issued_at + s.expires_in) :
    verify [kp] (toRequest (signedURL s kp) s.method s.content_type) now =
      .ok (kp, ⟨s.method, s.bucket, s.key⟩) := by
  simp only [toRequest, signedURL]
  rw [verify_std kp s.method (47 :: (s.bucket ++ s.key)) (natDec s.issued_at)
      (natDec s.expires_in) (signatureOf s kp) s.content_type now rfl,
    if_neg (by simp [signatureOf])]
  simp only [parseNat_natDec]
  rw [if_neg (by omega), if_neg (by omega), scopeOf_std s.method _ _ hb hk]

theorem verify_signed_expired (s : SignRequestSpec) (kp : AccessKeyPair) (now : Nat)
    (hlo : s.issued_at ≤ now) (hhi : s.issued_at + s.expires_in < now) :
    verify [kp] (toRequest (signedURL s kp) s.method s.content_type) now =
      .error .expiredSignature := by
  simp only [toRequest, signedURL]
  rw [verify_std kp s.method (47 :: (s.bucket ++ s.key)) (natDec s.issued_at)
      (natDec s.expires_in) (signatureOf s kp) s.content_type now rfl,
    if_neg (by simp [signatureOf])]
  simp only [parseNat_natDec]
  rw [if_neg (by omega), if_pos (by omega)]

theorem verify_signed_window (s : SignRequestSpec) (kp : AccessKeyPair) (t : Nat)
    (res : AccessKeyPair × Scope)
    (h : verify [kp] (toRequest (signedURL s kp) s.method s.content_type) t = .ok res) :
    s.issued_at ≤ t ∧ t ≤ s.issued_at + s.expires_in := by
  simp only [toRequest, signedURL] at h
  rw [verify_std kp s.method (47 :: (s.bucket ++ s.key)) (natDec s.issued_at)
    (natDec s.expires_in) (signatureOf s kp) s.content_type t rfl] at h
  simp only [parseNat_natDec] at h
  split at h
  · exact absurd h (by simp)
  · split at h
    · exact absurd h (by simp)
    · split at h
      · exact absurd h (by simp)
      · omega

theorem encodeQuery_inj {ps qs : List (List Nat × List Nat)}
    (hp : ∀ p ∈ ps, (∀ b ∈ p.1, b < 256) ∧ (∀ b ∈ p.2, b < 256))
    (hq : ∀ p ∈ qs, (∀ b ∈ p.1, b < 256) ∧ (∀ b ∈ p.2, b < 256))
    (h : encodeQuery ps = encodeQuery qs) : ps = qs := by
  have e1 := decodeQuery_encodeQuery hp
  have e2 := decodeQuery_encodeQuery hq
  rw [h] at e1
  rw [e1] at e2
  exact Option.some.inj e2

/-- C1: For every valid pair of a SignRequestSpec and an AccessKeyPair,
verifying the presigned URL produced by sign (presented as an incoming
request within the expiry window) succeeds and returns the same method,
bucket, and key that were signed. -/
theorem sign_verify_roundtrip (s : SignRequestSpec) (kp : AccessKeyPair) (now : Nat)
    (hk : s.key.head? = some 47) (hb : ∀ c ∈ s.bucket, c ≠ 47)
    (h1 : s.expires_in ≠ 0) (h2 : s.expires_in ≤ maxExpiry)
    (hlo : s.issued_at ≤ now) (hhi : now ≤ s.issued_at + s.expires_in)
    (u : PresignedURL) (hu : sign s kp = .ok u) :
    verify [kp] (toRequest u s.method s.content_type) now =
      .ok (kp, ⟨s.method, s.bucket, s.key⟩) := by
  rw [sign_eq hk h1 h2] at hu
  obtain rfl := Except.ok.inj hu
  exact verify_signed_ok s kp now hk hb hlo hhi

/-- Witness for C1 at a concrete spec and keypair. -/
theorem sign_verify_roundtrip_witness :
    verify [⟨[107], [115], [114]⟩]
      (toRequest (signedURL ⟨.PUT, [98], [47, 104], none, 900, 100⟩ ⟨[107], [115], [114]⟩)
        Method.PUT none) 500 =
      .ok (⟨[107], [115], [114]⟩, ⟨.PUT, [98], [47, 104]⟩) :=
  sign_verify_roundtrip ⟨.PUT, [98], [47, 104], none, 900, 100⟩ ⟨[107], [115], [114]⟩ 500
    rfl (by decide) (by decide) (by decide) (by decide) (by decide)
    (signedURL ⟨.PUT, [98], [47, 104], none, 900, 100⟩ ⟨[107], [115], [114]⟩)
    (sign_eq rfl (by decide) (by decide))

/-- C2: Verification enforces method scope — a URL signed for one HTTP
method does not verify for a request with a different method on the same
path with the same query parameters; in particular a PUT-signed URL
authorizes neither GET nor DELETE. -/
theorem verify_method_scope (s : SignRequestSpec) (kp : AccessKeyPair) (now : Nat)
    (m2 : Method) (ct : Option (List Nat)) (hm : m2 ≠ s.method)
    (hk : s.key.head? = some 47) (h1 : s.expires_in ≠ 0) (h2 : s.expires_in ≤ maxExpiry)
    (u : PresignedURL) (hu : sign s kp = .ok u) :
    verify [kp] (toRequest u m2 ct) now = .error .signatureMismatch := by
  rw [sign_eq hk h1 h2] at hu
  obtain rfl := Except.ok.inj hu
  simp only [toRequest, signedURL]
  have hcond : hmac (hmac kp.secret_key (STOWRYTag ++ natDec s.issued_at))
      (canonicalOf m2 (47 :: (s.bucket ++ s.key)) kp.access_key_id (natDec s.issued_at)
        (natDec s.expires_in) ct) ≠ signatureOf s kp := by
    intro heq
    rw [signatureOf] at heq
    have hc2 := (hmac_inj heq).2
    rw [canonicalOf, canonicalOf] at hc2
    simp only [List.cons_append, List.append_assoc] at hc2
    exact hm (methodSplit_inj hc2).1
  rw [verify_std kp m2 (47 :: (s.bucket ++ s.key)) (natDec s.issued_at)
    (natDec s.expires_in) (signatureOf s kp) ct now rfl, if_pos hcond]

/-- Witness for C2: a PUT-signed URL does not verify for GET. -/
theorem verify_method_scope_witness :
    verify [⟨[107], [115], [114]⟩]
      (toRequest (signedURL ⟨.PUT, [98], [47, 104], none, 900, 100⟩ ⟨[107], [115], [114]⟩)
        Method.GET none) 500 = .error .signatureMismatch :=
  verify_method_scope ⟨.PUT, [98], [47, 104], none, 900, 100⟩ ⟨[107], [115], [114]⟩ 500
    Method.GET none (by decide) rfl (by decide) (by decide)
    (signedURL ⟨.PUT, [98], [47, 104], none, 900, 100⟩ ⟨[107], [115], [114]⟩)
    (sign_eq rfl (by decide) (by decide))

/-- C4: The validity window's upper bound is inclusive — verification at
`issued_at + expires_in - 1` succeeds, at `issued_at + expires_in + 1` it
fails with ExpiredSignatureError, and success happens only inside
`[issued_at, issued_at + expires_in]`. -/
theorem expiry_window_boundary (s : SignRequestSpec) (kp : AccessKeyPair)
    (hk : s.key.head? = some 47) (hb : ∀ c ∈ s.bucket, c ≠ 47)
    (h1 : s.expires_in ≠ 0) (h2 : s.expires_in ≤ maxExpiry)
    (u : PresignedURL) (hu : sign s kp = .ok u) :
    verify [kp] (toRequest u s.method s.content_type) (s.issued_at + s.expires_in - 1) =
      .ok (kp, ⟨s.method, s.bucket, s.key⟩) ∧
    verify [kp] (toRequest u s.method s.content_type) (s.issued_at + s.expires_in + 1) =
      .error .expiredSignature ∧
    ∀ (t : Nat) (res : AccessKeyPair × Scope),
      verify [kp] (toRequest u s.method s.content_type) t = .ok res →
      s.issued_at ≤ t ∧ t ≤ s.issued_at + s.expires_in := by
  rw [sign_eq hk h1 h2] at hu
  obtain rfl := Except.ok.inj hu
  refine ⟨verify_signed_ok s kp _ hk hb (by omega) (by omega),
    verify_signed_expired s kp _ (by omega) (by omega),
    fun t res h => verify_signed_window s kp t res h⟩

/-- Witness for C4 at a concrete spec and keypair. -/
theorem expiry_window_boundary_witness :
    verify [⟨[107], [115], [114]⟩]
      (toRequest (signedURL ⟨.PUT, [98], [47, 104], none, 900, 100⟩ ⟨[107], [115], [114]⟩)
        Method.PUT none) 999 =
      .ok (⟨[107], [115], [114]⟩, ⟨.PUT, [98], [47, 104]⟩) ∧
    verify [⟨[107], [115], [114]⟩]
      (toRequest (signedURL ⟨.PUT, [98], [47, 104], none, 900, 100⟩ ⟨[107], [115], [114]⟩)
        Method.PUT none) 1001 = .error .expiredSignature ∧
    ∀ (t : Nat) (res : AccessKeyPair × Scope),
      verify [⟨[107], [115], [114]⟩]
        (toRequest (signedURL ⟨.PUT, [98], [47, 104], none, 900, 100⟩ ⟨[107], [115], [114]⟩)
          Method.PUT none) t = .ok res →
      100 ≤ t ∧ t ≤ 1000 :=
  expiry_window_boundary ⟨.PUT, [98], [47, 104], none, 900, 100⟩ ⟨[107], [115], [114]⟩
    rfl (by decide) (by decide) (by decide)
    (signedURL ⟨.PUT, [98], [47, 104], none, 900, 100⟩ ⟨[107], [115], [114]⟩)
    (sign_eq rfl (by decide) (by decide))

/-- C5: Signing is deterministic — the same spec, keypair and issued_at give
an identical result — while changing issued_at by one second changes the
embedded signature. -/
theorem sign_deterministic_time_sensitive (s : SignRequestSpec) (kp : AccessKeyPair)
    (hk : s.key.head? = some 47) (h1 : s.expires_in ≠ 0) (h2 : s.expires_in ≤ maxExpiry) :
    sign s kp = sign s kp ∧
    ∀ u v : PresignedURL, sign s kp = .ok u →
      sign { s with issued_at := s.issued_at + 1 } kp = .ok v →
      lookupParam sigParamName u.params ≠ lookupParam sigParamName v.params := by
  refine ⟨rfl, fun u v hu hv => ?_⟩
  rw [sign_eq hk h1 h2] at hu
  have hk2 : ({ s with issued_at := s.issued_at + 1 } : SignRequestSpec).key.head? =
    some 47 := hk
  have h12 : ({ s with issued_at := s.issued_at + 1 } : SignRequestSpec).expires_in ≠ 0 := h1
  have h22 : ({ s with issued_at := s.issued_at + 1 } : SignRequestSpec).expires_in ≤
    maxExpiry := h2
  rw [sign_eq hk2 h12 h22] at hv
  obtain rfl := Except.ok.inj hu
  obtain rfl := Except.ok.inj hv
  simp only [signedURL, lookupParam_std_sig]
  intro heq
  have h3 := Option.some.inj heq
  rw [signatureOf, signatureOf] at h3
  have h5 := (hmac_inj (hmac_inj h3).1).2
  have h6 : s.issued_at = s.issued_at + 1 :=
    natDec_inj (List.append_cancel_left h5)
  omega

/-- Witness for C5 at a concrete spec and keypair. -/
theorem sign_deterministic_time_sensitive_witness :
    sign ⟨.PUT, [98], [47, 104], none, 900, 100⟩ ⟨[107], [115], [114]⟩ =
      sign ⟨.PUT, [98], [47, 104], none, 900, 100⟩ ⟨[107], [115], [114]⟩ ∧
    ∀ u v : PresignedURL,
      sign ⟨.PUT, [98], [47, 104], none, 900, 100⟩ ⟨[107], [115], [114]⟩ = .ok u →
      sign ⟨.PUT, [98], [47, 104], none, 900, 101⟩ ⟨[107], [115], [114]⟩ = .ok v →
      lookupParam sigParamName u.params ≠ lookupParam sigParamName v.params :=
  sign_deterministic_time_sensitive ⟨.PUT, [98], [47, 104], none, 900, 100⟩
    ⟨[107], [115], [114]⟩ rfl (by decide) (by decide)

/-- C6: The URL codec is its own exact inverse — decoding an encoded
query-parameter mapping returns it unchanged, for every mapping of byte
strings (slashes, spaces and non-ASCII UTF-8 bytes included). -/
theorem codec_roundtrip (ps : List (List Nat × List Nat))
    (h : ∀ p ∈ ps, (∀ b ∈ p.1, b < 256) ∧ (∀ b ∈ p.2, b < 256)) :
    decodeQuery (encodeQuery ps) = some ps :=
  decodeQuery_encodeQuery h

/-- Witness for C6 on a mapping whose value holds a slash, a space and the
two UTF-8 bytes of a non-ASCII character. -/
theorem codec_roundtrip_witness :
    decodeQuery (encodeQuery [([107, 101, 121], [47, 117, 112, 32, 195, 169])]) =
      some [([107, 101, 121], [47, 117, 112, 32, 195, 169])] :=
  codec_roundtrip [([107, 101, 121], [47, 117, 112, 32, 195, 169])] (by decide)

/-- C3 counterexample: altering the first byte of the path of a signed URL
(the leading `/`) makes verify fail with MalformedKeyError, not with
SignatureMismatchError as the claim states. -/
theorem tamper_first_path_byte_error_kind :
    verify [⟨[107], [115], [114]⟩]
      { method := .PUT
        path := [88, 98, 47, 104]
        params := (signedURL ⟨.PUT, [98], [47, 104], none, 900, 100⟩
          ⟨[107], [115], [114]⟩).params
        content_type := none } 100 = .error .malformedKey ∧
    AuthError.malformedKey ≠ AuthError.signatureMismatch :=
  ⟨rfl, by decide⟩

/-- C3 (amended): every single-field alteration of a signed URL is rejected
— an altered signature, an altered path that keeps the leading `/`, or an
altered date or expires value fails with SignatureMismatchError; an altered
path that loses the leading `/` fails with MalformedKeyError and an altered
key id fails with UnknownKeyError.  No altered input verifies successfully. -/
theorem verify_tamper_rejected (s : SignRequestSpec) (kp : AccessKeyPair) (now : Nat)
    (p2 d2 e2 g2 id2 : List Nat)
    (hid : ∀ b ∈ kp.access_key_id, b < 256) :
    (g2 ≠ signatureOf s kp →
      verify [kp] ⟨s.method, 47 :: (s.bucket ++ s.key),
        stdParams kp.access_key_id (natDec s.issued_at) (natDec s.expires_in) g2,
        s.content_type⟩ now = .error .signatureMismatch) ∧
    (p2 ≠ 47 :: (s.bucket ++ s.key) → p2.head? = some 47 →
      verify [kp] ⟨s.method, p2,
        stdParams kp.access_key_id (natDec s.issued_at) (natDec s.expires_in)
          (signatureOf s kp), s.content_type⟩ now = .error .signatureMismatch) ∧
    (p2.head? ≠ some 47 →
      verify [kp] ⟨s.method, p2, stdParams kp.access_key_id d2 e2 g2,
        s.content_type⟩ now = .error .malformedKey) ∧
    (d2 ≠ natDec s.issued_at →
      verify [kp] ⟨s.method, 47 :: (s.bucket ++ s.key),
        stdParams kp.access_key_id d2 (natDec s.expires_in) (signatureOf s kp),
        s.content_type⟩ now = .error .signatureMismatch) ∧
    (e2 ≠ natDec s.expires_in → (∀ b ∈ e2, b < 256) →
      verify [kp] ⟨s.method, 47 :: (s.bucket ++ s.key),
        stdParams kp.access_key_id (natDec s.issued_at) e2 (signatureOf s kp),
        s.content_type⟩ now = .error .signatureMismatch) ∧
    (id2 ≠ kp.access_key_id →
      verify [kp] ⟨s.method, p2, stdParams id2 d2 e2 g2,
        s.content_type⟩ now = .error .unknownKey) := by
  refine ⟨?_, ?_, ?_, ?_, ?_, ?_⟩
  · intro hg
    rw [verify_std kp s.method (47 :: (s.bucket ++ s.key)) (natDec s.issued_at)
      (natDec s.expires_in) g2 s.content_type now rfl,
      if_pos (fun h => hg h.symm)]
  · intro hp2 hph
    rw [verify_std kp s.method p2 (natDec s.issued_at) (natDec s.expires_in)
      (signatureOf s kp) s.content_type now hph]
    rw [if_pos ?_]
    intro heq
    rw [signatureOf] at heq
    have hc2 := (hmac_inj heq).2
    rw [canonicalOf, canonicalOf] at hc2
    have hc3 := List.append_cancel_right (List.append_cancel_right hc2)
    have hc4 := List.append_cancel_left hc3
    rw [List.cons.injEq] at hc4
    exact hp2 hc4.2
  · intro hph
    simp only [verify, lookupParam_std_sig, lookupParam_std_key, lookupParam_std_date,
      lookupParam_std_expires, removeParam_std_sig, resolve_self, canonicalRequest]
    rw [if_neg hph]
  · intro hd
    rw [verify_std kp s.method (47 :: (s.bucket ++ s.key)) d2 (natDec s.expires_in)
      (signatureOf s kp) s.content_type now rfl]
    rw [if_pos ?_]
    intro heq
    rw [signatureOf] at heq
    have hc1 := (hmac_inj (hmac_inj heq).1).2
    exact hd (List.append_cancel_left hc1)
  · intro he he256
    rw [verify_std kp s.method (47 :: (s.bucket ++ s.key)) (natDec s.issued_at) e2
      (signatureOf s kp) s.content_type now rfl]
    rw [if_pos ?_]
    intro heq
    rw [signatureOf] at heq
    have hc2 := (hmac_inj heq).2
    rw [canonicalOf, canonicalOf] at hc2
    have hc4 := List.append_cancel_left (List.append_cancel_right hc2)
    rw [List.cons.injEq] at hc4
    have hq := encodeQuery_inj ?_ ?_ hc4.2
    · rw [List.cons.injEq, List.cons.injEq, List.cons.injEq] at hq
      exact he (congrArg Prod.snd hq.2.2.1)
    · intro p hp
      simp only [List.mem_cons, List.not_mem_nil, or_false] at hp
      rcases hp with rfl | rfl | rfl
      · exact ⟨show ∀ b ∈ keyParamName, b < 256 from by decide, hid⟩
      · refine ⟨show ∀ b ∈ dateParamName, b < 256 from by decide, fun b hb => ?_⟩
        have := natDec_digits s.issued_at b hb
        omega
      · exact ⟨show ∀ b ∈ expiresParamName, b < 256 from by decide, he256⟩
    · intro p hp
      simp only [List.mem_cons, List.not_mem_nil, or_false] at hp
      rcases hp with rfl | rfl | rfl
      · exact ⟨show ∀ b ∈ keyParamName, b < 256 from by decide, hid⟩
      · refine ⟨show ∀ b ∈ dateParamName, b < 256 from by decide, fun b hb => ?_⟩
        have := natDec_digits s.issued_at b hb
        omega
      · refine ⟨show ∀ b ∈ expiresParamName, b < 256 from by decide, fun b hb => ?_⟩
        have := natDec_digits s.expires_in b hb
        omega
  · intro hid2
    simp only [verify, lookupParam_std_sig, lookupParam_std_key]
    rw [resolve, if_neg (fun h => hid2 h.symm), resolve]

/-- Witness for C3 (amended) at a concrete spec, keypair and alterations. -/
theorem verify_tamper_rejected_witness :
    (([99] : List Nat) ≠ signatureOf ⟨.PUT, [98], [47, 104], none, 900, 100⟩
        ⟨[107], [115], [114]⟩ →
      verify [⟨[107], [115], [114]⟩] ⟨.PUT, 47 :: ([98] ++ [47, 104]),
        stdParams [107] (natDec 100) (natDec 900) [99], none⟩ 100 =
        .error .signatureMismatch) ∧
    (([47, 99, 47, 104] : List Nat) ≠ 47 :: ([98] ++ [47, 104]) →
      ([47, 99, 47, 104] : List Nat).head? = some 47 →
      verify [⟨[107], [115], [114]⟩] ⟨.PUT, [47, 99, 47, 104],
        stdParams [107] (natDec 100) (natDec 900)
          (signatureOf ⟨.PUT, [98], [47, 104], none, 900, 100⟩ ⟨[107], [115], [114]⟩),
        none⟩ 100 = .error .signatureMismatch) ∧
    (([47, 99, 47, 104] : List Nat).head? ≠ some 47 →
      verify [⟨[107], [115], [114]⟩] ⟨.PUT, [47, 99, 47, 104],
        stdParams [107] (natDec 101) (natDec 901) [99], none⟩ 100 =
        .error .malformedKey) ∧
    (natDec 101 ≠ natDec 100 →
      verify [⟨[107], [115], [114]⟩] ⟨.PUT, 47 :: ([98] ++ [47, 104]),
        stdParams [107] (natDec 101) (natDec 900)
          (signatureOf ⟨.PUT, [98], [47, 104], none, 900, 100⟩ ⟨[107], [115], [114]⟩),
        none⟩ 100 = .error .signatureMismatch) ∧
    (natDec 901 ≠ natDec 900 → (∀ b ∈ natDec 901, b < 256) →
      verify [⟨[107], [115], [114]⟩] ⟨.PUT, 47 :: ([98] ++ [47, 104]),
        stdParams [107] (natDec 100) (natDec 901)
          (signatureOf ⟨.PUT, [98], [47, 104], none, 900, 100⟩ ⟨[107], [115], [114]⟩),
        none⟩ 100 = .error .signatureMismatch) ∧
    (([108] : List Nat) ≠ [107] →
      verify [⟨[107], [115], [114]⟩] ⟨.PUT, [47, 99, 47, 104],
        stdParams [108] (natDec 101) (natDec 901) [99], none⟩ 100 =
        .error .unknownKey) :=
  verify_tamper_rejected ⟨.PUT, [98], [47, 104], none, 900, 100⟩ ⟨[107], [115], [114]⟩
    100 [47, 99, 47, 104] (natDec 101) (natDec 901) [99] [108] (by decide)



theorem canonicalRequest_ok_of_slash {p : List Nat} (hp : p.head? = some 47)
    (m : Method) (q : List (List Nat × List Nat)) (ct : Option (List Nat)) :
    ∃ c, canonicalRequest m p q ct = .ok c := by
  rw [canonicalRequest, if_pos hp]
  exact ⟨_, rfl⟩

theorem strBytes_slash_append (t : String) :
    (strBytes ("/" ++ t)).head? = some 47 := by
  rw [strBytes, String.data_append]
  rfl

theorem presignUploadKey_head (b u f : String) :
    (strBytes (presignUploadKey b u f)).head? = some 47 := by
  rw [presignUploadKey, strBytes]
  simp only [String.data_append]
  rfl

theorem presignDownloadKey_head (k : String) :
    (strBytes (presignDownloadKey k)).head? = some 47 := by
  rw [presignDownloadKey]
  by_cases h : startsWithSlash k = true
  · rw [if_pos h, startsWithSlash, beq_iff_eq] at *
    rw [strBytes, List.head?_map, h]
    rfl
  · rw [if_neg h]
    exact strBytes_slash_append k

/-- C7 counterexample: list_files (app.py line 94) is a fourth stowrypy
presign call, and it passes the stored client-posted key unvalidated — with
the default stored key `""` (save_file's `data.get("key", "")`) the key it
passes does not begin with `/`, and the canonical-request builder's
MalformedKeyError branch is reached there. -/
theorem list_files_key_reaches_malformedKey :
    (strBytes (listFilesPresignKey (saveFileKey none))).head? ≠ some 47 ∧
    canonicalRequest .GET (strBytes (listFilesPresignKey (saveFileKey none))) [] none =
      .error .malformedKey :=
  ⟨by decide, rfl⟩

/-- C7 (amended): the three enumerated key builders — presign_upload's
`/{bucket}/{uuid}-{name}`, presign_download's `/`-prepending and the native
example's literals — always produce keys beginning with `/`, so the
canonical-request builder's precondition holds and its MalformedKeyError
branch is unreachable for those call sites; the remaining presign call,
list_files, passes the stored client-posted key through unchanged, and on
the default stored key `""` the key does not begin with `/` and
MalformedKeyError is reachable. -/
theorem example_builder_keys_slash_prefixed :
    (∀ b u f : String, (strBytes (presignUploadKey b u f)).head? = some 47 ∧
      ∀ (m : Method) (q : List (List Nat × List Nat)) (ct : Option (List Nat)),
        ∃ c, canonicalRequest m (strBytes (presignUploadKey b u f)) q ct = .ok c) ∧
    (∀ k : String, (strBytes (presignDownloadKey k)).head? = some 47 ∧
      ∀ (m : Method) (q : List (List Nat × List Nat)) (ct : Option (List Nat)),
        ∃ c, canonicalRequest m (strBytes (presignDownloadKey k)) q ct = .ok c) ∧
    ((strBytes nativeExampleKey).head? = some 47 ∧
      (strBytes nativePresignedUploadKey).head? = some 47 ∧
      ∀ (m : Method) (q : List (List Nat × List Nat)) (ct : Option (List Nat)),
        ∃ c, canonicalRequest m (strBytes nativeExampleKey) q ct = .ok c) ∧
    ((∀ k : String, listFilesPresignKey k = k) ∧
      (strBytes (listFilesPresignKey (saveFileKey none))).head? ≠ some 47 ∧
      canonicalRequest .GET (strBytes (listFilesPresignKey (saveFileKey none))) [] none =
        .error .malformedKey) := by
  refine ⟨fun b u f => ⟨presignUploadKey_head b u f, fun m q ct =>
      canonicalRequest_ok_of_slash (presignUploadKey_head b u f) m q ct⟩,
    fun k => ⟨presignDownloadKey_head k, fun m q ct =>
      canonicalRequest_ok_of_slash (presignDownloadKey_head k) m q ct⟩,
    ⟨rfl, rfl, fun m q ct =>
      @canonicalRequest_ok_of_slash (strBytes nativeExampleKey) rfl m q ct⟩,
    fun k => rfl, by decide, rfl⟩

/-- C8: A presigned URL is usable by a generic HTTP client with no special
headers — in every request the example clients make with a presigned URL the
only header is Content-Type and only on PUT; GET and DELETE carry none. -/
theorem presigned_requests_header_discipline :
    ∀ call ∈ nativeMainCalls ++ awsMainCalls,
      (∀ h ∈ call.headers, h.1 = "Content-Type") ∧
      (call.method = .GET ∨ call.method = .DELETE → call.headers = []) ∧
      (call.headers ≠ [] → call.method = .PUT) := by
  decide

/-- Witness for C8 on the PUT request of the native example. -/
theorem presigned_requests_header_discipline_witness :
    (⟨.PUT, [("Content-Type", "text/plain")]⟩ : HttpCall) ∈
      nativeMainCalls ++ awsMainCalls ∧
    ((∀ h ∈ (⟨.PUT, [("Content-Type", "text/plain")]⟩ : HttpCall).headers,
        h.1 = "Content-Type") ∧
      ((⟨.PUT, [("Content-Type", "text/plain")]⟩ : HttpCall).method = .GET ∨
        (⟨.PUT, [("Content-Type", "text/plain")]⟩ : HttpCall).method = .DELETE →
        (⟨.PUT, [("Content-Type", "text/plain")]⟩ : HttpCall).headers = []) ∧
      ((⟨.PUT, [("Content-Type", "text/plain")]⟩ : HttpCall).headers ≠ [] →
        (⟨.PUT, [("Content-Type", "text/plain")]⟩ : HttpCall).method = .PUT)) :=
  ⟨by decide, presigned_requests_header_discipline _ (by decide)⟩

theorem mem_collapseUnderscores {c : Char} :
    ∀ {l : List Char}, c ∈ collapseUnderscores l → c ∈ l := by
  intro l
  induction l using collapseUnderscores.induct with
  | case1 => simp [collapseUnderscores]
  | case2 rest ih =>
    rw [collapseUnderscores, if_pos rfl]
    intro hc
    rcases List.mem_cons.1 hc with h1 | h1
    · exact h1 ▸ List.mem_cons_self _ _
    · exact List.mem_cons_of_mem _ ((List.dropWhile_sublist _).subset (ih h1))
  | case3 c2 rest hc2 ih =>
    rw [collapseUnderscores, if_neg hc2]
    intro hc
    rcases List.mem_cons.1 hc with h1 | h1
    · exact h1 ▸ List.mem_cons_self _ _
    · exact List.mem_cons_of_mem _ (ih h1)

theorem collapseUnderscores_head (l : List Char) :
    (collapseUnderscores l).head? = l.head? := by
  match l with
  | [] => rw [collapseUnderscores]
  | c :: rest =>
    rw [collapseUnderscores]
    split
    · rename_i h
      rw [h]
      rfl
    · rfl

theorem dropWhile_underscore_head {l : List Char} {a : Char}
    (h : (l.dropWhile (fun c => c = '_')).head? = some a) : a ≠ '_' := by
  induction l with
  | nil => simp [List.dropWhile] at h
  | cons x xs ih =>
    rw [List.dropWhile_cons] at h
    split at h
    · exact ih h
    · rename_i hx
      simp only [List.head?_cons, Option.some.injEq] at h
      subst h
      simpa using hx

theorem collapseUnderscores_chain (l : List Char) :
    List.Chain' (fun a b => ¬(a = '_' ∧ b = '_')) (collapseUnderscores l) := by
  induction l using collapseUnderscores.induct with
  | case1 => simp [collapseUnderscores]
  | case2 rest ih =>
    rw [collapseUnderscores, if_pos rfl, List.chain'_cons']
    refine ⟨fun y hy => ?_, ih⟩
    have h1 := Option.mem_def.1 hy
    rw [collapseUnderscores_head] at h1
    have h2 := dropWhile_underscore_head h1
    exact fun hcon => h2 hcon.2
  | case3 c2 rest hc2 ih =>
    rw [collapseUnderscores, if_neg hc2, List.chain'_cons']
    exact ⟨fun y _ => fun hcon => hc2 hcon.1, ih⟩

theorem collapseUnderscores_of_chain : ∀ {l : List Char},
    List.Chain' (fun a b => ¬(a = '_' ∧ b = '_')) l → collapseUnderscores l = l := by
  intro l
  induction l using collapseUnderscores.induct with
  | case1 =>
    intro _
    rw [collapseUnderscores]
  | case2 rest ih =>
    intro hch
    rw [List.chain'_cons'] at hch
    have hdw : rest.dropWhile (fun c => c = '_') = rest := by
      cases rest with
      | nil => rfl
      | cons x xs =>
        have hx := hch.1 x (by simp)
        have hx2 : x ≠ '_' := fun hcon => hx ⟨rfl, hcon⟩
        rw [List.dropWhile_cons, if_neg (by simpa using hx2)]
    rw [collapseUnderscores, if_pos rfl, hdw]
    rw [hdw] at ih
    rw [ih hch.2]
  | case3 c2 rest hc2 ih =>
    intro hch
    rw [List.chain'_cons'] at hch
    rw [collapseUnderscores, if_neg hc2, ih hch.2]

theorem replaceSpaces_id {l : List Char} (h : ∀ c ∈ l, c ≠ ' ') :
    replaceSpaces l = l := by
  induction l with
  | nil => rfl
  | cons c cs ih =>
    have hc := h c (List.mem_cons_self _ _)
    have hcs : ∀ x ∈ cs, x ≠ ' ' := fun x hx => h x (List.mem_cons_of_mem _ hx)
    simp only [replaceSpaces, List.map_cons, if_neg hc]
    rw [List.cons.injEq]
    exact ⟨rfl, ih hcs⟩

theorem replaceNonWord_id {l : List Char}
    (h : ∀ c ∈ l, (isWordChar c || c = '-' || c = '.') = true) :
    replaceNonWord l = l := by
  induction l with
  | nil => rfl
  | cons c cs ih =>
    have hc := h c (List.mem_cons_self _ _)
    have hcs : ∀ x ∈ cs, (isWordChar x || x = '-' || x = '.') = true :=
      fun x hx => h x (List.mem_cons_of_mem _ hx)
    simp only [replaceNonWord, List.map_cons, if_pos hc]
    rw [List.cons.injEq]
    exact ⟨rfl, ih hcs⟩

theorem mem_replaceNonWord {c : Char} {l : List Char} (h : c ∈ replaceNonWord l) :
    (isWordChar c || c = '-' || c = '.') = true := by
  rw [replaceNonWord] at h
  rcases List.mem_map.1 h with ⟨a, _, ha⟩
  by_cases hcond : (isWordChar a || a = '-' || a = '.') = true
  · rw [if_pos hcond] at ha
    exact ha ▸ hcond
  · rw [if_neg hcond] at ha
    rw [← ha]
    decide

/-- C9: sanitize_filename is idempotent, and its output contains no spaces
and no two consecutive underscores. -/
theorem sanitize_filename_idempotent (s : String) :
    sanitize_filename (sanitize_filename s) = sanitize_filename s ∧
    (∀ c ∈ (sanitize_filename s).data, c ≠ ' ') ∧
    List.Chain' (fun a b => ¬(a = '_' ∧ b = '_')) (sanitize_filename s).data := by
  have hdata : (sanitize_filename s).data =
    collapseUnderscores (replaceNonWord (replaceSpaces s.data)) := rfl
  have hmemcond : ∀ c ∈ (sanitize_filename s).data,
      (isWordChar c || c = '-' || c = '.') = true := by
    intro c hc
    rw [hdata] at hc
    exact mem_replaceNonWord (mem_collapseUnderscores hc)
  have hnospace : ∀ c ∈ (sanitize_filename s).data, c ≠ ' ' := by
    intro c hc hceq
    subst hceq
    exact absurd (hmemcond _ hc) (by decide)
  have hchain : List.Chain' (fun a b => ¬(a = '_' ∧ b = '_'))
      (sanitize_filename s).data := by
    rw [hdata]
    exact collapseUnderscores_chain _
  refine ⟨?_, hnospace, hchain⟩
  show String.mk (collapseUnderscores (replaceNonWord (replaceSpaces
    (sanitize_filename s).data))) = sanitize_filename s
  rw [replaceSpaces_id hnospace, replaceNonWord_id hmemcond,
    collapseUnderscores_of_chain hchain]

/-- C10: with no auth keys in the loaded configuration (empty or missing key
list), each example script fails with ValueError("No auth keys found in
config") before any client is constructed. -/
theorem missing_auth_keys_rejected (c : NativeConfig) (c2 : AwsConfig)
    (h : nativeConfigKeys c = []) (h2 : awsConfigKeys c2 = []) :
    nativeMainClient c = .error "No auth keys found in config" ∧
    create_client c2 = .error "No auth keys found in config" := by
  constructor
  · rw [nativeMainClient, h]
  · rw [create_client, h2]

/-- Witness for C10 on configurations with a missing `auth` section. -/
theorem missing_auth_keys_rejected_witness :
    nativeMainClient ⟨none⟩ = .error "No auth keys found in config" ∧
    create_client ⟨none⟩ = .error "No auth keys found in config" :=
  missing_auth_keys_rejected ⟨none⟩ ⟨none⟩ rfl rfl

end Stowry
